import Mathlib

/-!
Shallow embedding of `tobler/harmonize.py` (the `harmonize` function) and a
verification of the specification claims about it.

A pandas `DataFrame` is modelled as a row index (list of integer labels)
together with named columns of values (`DFrame`).  A `GeoDataFrame` is a
`DFrame` plus an optional coordinate reference system tag.  Fallible pandas
operations return `Except PyError`.  The three interpolation primitives
(`area_interpolate_binning`, `area_tables_raster`, `area_interpolate`) are
imported from `tobler.area_weighted`, which is outside the sources; they are
therefore parameters of the embedding (`Prims`).  Since a primitive receives
the dataframe objects themselves and may in principle mutate them, each
primitive also returns the (possibly mutated) target frame it was handed;
passing `target_df.copy()` in the Python source corresponds to discarding
that returned component, while passing `target_df` itself corresponds to
rebinding the local `target_df` to it.
-/

namespace Tobler

/-- A scalar cell value of a dataframe: integers, strings, opaque geometry
objects, and the missing value `NaN`. -/
inductive Val where
  | vInt (n : Int)
  | vStr (s : String)
  | vGeom (g : Nat)
  | vNA
deriving DecidableEq, Repr

/-- Python exceptions that the orchestration code in `harmonize.py` can
surface: `TypeError`, `ValueError`, `KeyError`, `IndexError` and
`UnboundLocalError` (a `NameError` for an unassigned local). -/
inductive PyError where
  | typeError (msg : String)
  | valueError (msg : String)
  | keyError (key : String)
  | indexError (msg : String)
  | unboundLocalError (nm : String)
deriving DecidableEq, Repr

/-- A pandas `DataFrame`: a row index of integer labels and a list of named
columns; in a well-formed frame every column has as many entries as the
index. -/
structure DFrame where
  index : List Int
  cols : List (String × List Val)
deriving DecidableEq, Repr, Inhabited

/-- A geopandas `GeoDataFrame`: a dataframe together with an optional
coordinate reference system. -/
structure GeoDFrame where
  df : DFrame
  crs : Option String
deriving DecidableEq, Repr, Inhabited

/-- Number of rows of a dataframe. -/
def DFrame.nrows (df : DFrame) : Nat := df.index.length

/-- The column names of a dataframe, in order. -/
def DFrame.colNames (df : DFrame) : List String := df.cols.map (·.1)

/-- Look up a column by name (first match), as pandas `df[name]` would. -/
def DFrame.col? (df : DFrame) (nm : String) : Option (List Val) :=
  (df.cols.find? (fun c => decide (c.1 = nm))).map (·.2)

/-- Column lookup raising `KeyError` when the column is absent,
modelling `df[name]`. -/
def DFrame.col! (df : DFrame) (nm : String) : Except PyError (List Val) :=
  match df.col? nm with
  | some vs => Except.ok vs
  | none => Except.error (.keyError nm)

/-- Select the entries of a list at the positions where a boolean mask
holds, as in boolean-mask row selection `df[mask]`. -/
def maskSel {α : Type} : List Bool → List α → List α
  | b :: bs, x :: xs => if b then x :: maskSel bs xs else maskSel bs xs
  | _, _ => []

/-- Row selection `df[p(df[col])]`: keep the rows (index labels and column
entries) at positions where the predicate holds of the given column values. -/
def DFrame.filterBy (df : DFrame) (colVals : List Val) (p : Val → Bool) : DFrame :=
  let mask := colVals.map p
  ⟨maskSel mask df.index, df.cols.map (fun c => (c.1, maskSel mask c.2))⟩

/-- The labels `0, 1, …, n-1` of a fresh pandas `RangeIndex`. -/
def natRange (n : Nat) : List Int := (List.range n).map Int.ofNat

/-- Pandas `df.reset_index()` (without `drop=True`): the old index becomes a
new first column named `index` and the frame gets a fresh 0-based range
index; pandas raises when a column named `index` already exists. -/
def DFrame.resetIndex (df : DFrame) : Except PyError DFrame :=
  if "index" ∈ df.colNames then
    Except.error (.valueError "cannot insert index, already exists")
  else
    Except.ok ⟨natRange df.nrows, ("index", df.index.map Val.vInt) :: df.cols⟩

/-- Pandas `Series.unique()`: the distinct values in order of first
occurrence. -/
def pdUnique (xs : List Val) : List Val :=
  xs.foldl (fun acc x => if x ∈ acc then acc else acc ++ [x]) []

/-- The value a label-aligned assignment takes at label `ℓ`, looking the
label up in the source index; absent labels yield `NaN`. -/
def lookupLabel (idx : List Int) (vals : List Val) (ℓ : Int) : Val :=
  match (idx.zip vals).find? (fun p => decide (p.1 = ℓ)) with
  | some p => p.2
  | none => Val.vNA

/-- Align source values (carried by a source index) to a destination index,
as pandas does for `df[name] = series`. -/
def alignVals (dstIdx srcIdx : List Int) (vals : List Val) : List Val :=
  dstIdx.map (lookupLabel srcIdx vals)

/-- Write a column: replace it if a column of that name exists, otherwise
append it, as `df[name] = values` does. -/
def DFrame.putCol (df : DFrame) (nm : String) (vals : List Val) : DFrame :=
  if nm ∈ df.colNames then
    ⟨df.index, df.cols.map (fun c => if c.1 = nm then (nm, vals) else c)⟩
  else
    ⟨df.index, df.cols ++ [(nm, vals)]⟩

/-- The columns of `pd.DataFrame(mat, columns=names)`: the `j`-th name paired
with the `j`-th entry of every row. -/
def matCols (mat : List (List Val)) : Nat → List String → List (String × List Val)
  | _, [] => []
  | j, nm :: rest => (nm, mat.map (fun r => r.getD j Val.vNA)) :: matCols mat (j + 1) rest

/-- Columns and index of `pd.DataFrame(mat, columns=names)` ignoring the shape check: fresh range
index, columns taken from the matrix columnwise. -/
def mkDFraw (mat : List (List Val)) (columns : List String) : DFrame :=
  ⟨natRange mat.length, matCols mat 0 columns⟩

/-- Pandas `pd.DataFrame(mat, columns=names)`: raises `ValueError` when the number
of column names differs from the width of the matrix rows. -/
def mkDF (mat : List (List Val)) (columns : List String) : Except PyError DFrame :=
  if mat.all (fun r => decide (r.length = columns.length)) then
    Except.ok (mkDFraw mat columns)
  else
    Except.error (.valueError "Shape of passed values does not match columns")

/-- Reindex a frame to a destination index by label alignment, filling
missing labels with `NaN`. -/
def reindexTo (idx : List Int) (df : DFrame) : DFrame :=
  ⟨idx, df.cols.map (fun c => (c.1, alignVals idx df.index c.2))⟩

/-- The index of `pd.concat(frames, axis=1)`: union of the indices of the frames in
order of first appearance. -/
def idxUnion (frames : List DFrame) : List Int :=
  frames.foldl (fun acc f => acc ++ f.index.filter (fun ℓ => decide (ℓ ∉ acc))) []

/-- Pandas `pd.concat(frames, axis=1)`: outer-join the indices and put the columns of
all frames side by side; raises on an empty list of frames. -/
def pdConcatCols : List DFrame → Except PyError DFrame
  | [] => Except.error (.valueError "No objects to concatenate")
  | d :: ds =>
    let frames := d :: ds
    let idx := idxUnion frames
    Except.ok ⟨idx, (frames.map (fun f => (reindexTo idx f).cols)).flatten⟩

/-- A column of `df` for row-wise concatenation: the column itself when
present, otherwise a `NaN` column of the right length. -/
def getColD (df : DFrame) (nm : String) : List Val :=
  match df.col? nm with
  | some vs => vs
  | none => List.replicate df.nrows Val.vNA

/-- The union of the column names of the frames, in order of first appearance. -/
def colUnion (frames : List DFrame) : List String :=
  frames.foldl (fun acc f => acc ++ f.colNames.filter (fun nm => decide (nm ∉ acc))) []

/-- Whether all frames carry identical column-name lists (pandas only sorts
the united columns when they are not already aligned). -/
def allColsAligned : List DFrame → Bool
  | [] => true
  | d :: ds => ds.all (fun f => decide (f.colNames = d.colNames))

/-- Insert a string into a sorted list of strings. -/
def insortStr (x : String) : List String → List String
  | [] => [x]
  | y :: ys => if x ≤ y then x :: y :: ys else y :: insortStr x ys

/-- Insertion sort on strings, for the `sort=True` column ordering of
`pd.concat`. -/
def sortStrs : List String → List String
  | [] => []
  | x :: xs => insortStr x (sortStrs xs)

/-- Pandas `pd.concat(frames)` along rows: indices are concatenated, columns are the
union of the columns of the frames (sorted when `sort=True` and the frames are not
aligned), columns absent in a frame are filled with `NaN` for its rows;
raises on an empty list. -/
def vconcat (sorted : Bool) : List DFrame → Except PyError DFrame
  | [] => Except.error (.valueError "No objects to concatenate")
  | d :: ds =>
    let frames := d :: ds
    let names0 := colUnion frames
    let names := if sorted && !allColsAligned frames then sortStrs names0 else names0
    Except.ok ⟨(frames.map (·.index)).flatten,
      names.map (fun nm => (nm, (frames.map (fun f => getColD f nm)).flatten))⟩

/-- Python `len(x)` on an optional list argument: `len(None)` raises
`TypeError`. -/
def pyLen : Option (List String) → Except PyError Nat
  | none => Except.error (.typeError "object of type NoneType has no len")
  | some l => Except.ok l.length

/-- Line 113 of the source: `len(extensive_variables) == 0 and
len(intensive_variables) == 0`.  The Python `and` operator short-circuits, so
`len(intensive_variables)` is only evaluated when the extensive list is
empty; a `None` list raises `TypeError` when its `len` is taken. -/
def bothEmptyCheck (extensive_variables intensive_variables : Option (List String)) :
    Except PyError Bool := do
  let nExt ← pyLen extensive_variables
  if nExt = 0 then do
    let nInt ← pyLen intensive_variables
    pure (decide (nInt = 0))
  else pure false

/-- Modelled from the spec: `_check_presence_of_crs` lives in
`tobler.util.util`, which is not among the sources; per the spec (sections
4.1 and 7) it fails with a missing-reference-system error when the collection
lacks a defined coordinate reference system, and does nothing otherwise. -/
def checkPresenceOfCrs (g : GeoDFrame) : Except PyError Unit :=
  if g.crs = none then
    Except.error (.valueError "The Coordinate Reference System is not present")
  else
    Except.ok ()

/-- Run the presence check over every input collection, in order, as the
`for i in raw_community` loop does. -/
def checkAllCrs : List GeoDFrame → Except PyError Unit
  | [] => Except.ok ()
  | g :: gs => do
    checkPresenceOfCrs g
    checkAllCrs gs

/-- A 2-dimensional numpy array, as a list of rows. -/
abbrev Mat := List (List Val)

/-- The three external interpolation primitives from `tobler.area_weighted`.
Each receives the source and target frames (plus its other arguments) and
returns its numeric result together with the possibly mutated target frame
object it was handed; `ρ` is the opaque type of the raster weight tables,
which the orchestration code only passes through. -/
structure Prims (ρ : Type) where
  areaInterpBinning : DFrame → DFrame → Option (List String) → Option (List String) →
    Bool → Mat × Mat × DFrame
  areaTablesRaster : DFrame → DFrame → Option String → List Int → Bool → ρ × DFrame
  areaInterpolate : DFrame → DFrame → Option (List String) → Option (List String) →
    Bool → ρ → Mat × Mat × DFrame

/-- Reading the local variable `interpolation`: raises `UnboundLocalError`
when no dispatch branch assigned it. -/
def interpGet : Option (Mat × Mat) → Except PyError (Mat × Mat)
  | none => Except.error (.unboundLocalError "interpolation")
  | some m => Except.ok m

/-- Lines 171-178 of the source: build the list `profiles`, wrapping
`interpolation[0]` with the extensive variable names when extensive variables
were requested and `interpolation[1]` — also with the extensive variable
names — when intensive variables were requested.  Python evaluates
`len(extensive_variables)` and `len(intensive_variables)` here, so a `None`
list raises `TypeError` at this point. -/
def profileBlocks (interp : Option (Mat × Mat))
    (extensive_variables intensive_variables : Option (List String)) :
    Except PyError (List DFrame) := do
  let nExt ← pyLen extensive_variables
  let l1 ← if 0 < nExt then do
      let m ← interpGet interp
      let d ← mkDF m.1 (extensive_variables.getD [])
      pure [d]
    else pure []
  let nInt ← pyLen intensive_variables
  let l2 ← if 0 < nInt then do
      let m ← interpGet interp
      let d ← mkDF m.2 (extensive_variables.getD [])
      pure [d]
    else pure []
  pure (l1 ++ l2)

/-- Lines 171-183 of the source: concatenate the profile blocks columnwise,
then attach the target geometry column, the target identifier column and the
period value. -/
def buildProfile (interp : Option (Mat × Mat))
    (extensive_variables intensive_variables : Option (List String))
    (target_df : DFrame) (period : Val) (idxName time_col : String) :
    Except PyError DFrame := do
  let blocks ← profileBlocks interp extensive_variables intensive_variables
  let profile ← pdConcatCols blocks
  let geo ← target_df.col! "geometry"
  let p1 := profile.putCol "geometry" (alignVals profile.index target_df.index geo)
  let ids ← target_df.col! idxName
  let p2 := p1.putCol idxName (alignVals p1.index target_df.index ids)
  pure (p2.putCol time_col (p2.index.map (fun _ => period)))

/-- Python dict assignment `d[k] = v`: overwrite in place when the key is
present (keeping its position), otherwise append. -/
def dictInsert (d : List (Val × DFrame)) (k : Val) (v : DFrame) :
    List (Val × DFrame) :=
  if k ∈ d.map (·.1) then
    d.map (fun p => if p.1 = k then (k, v) else p)
  else
    d ++ [(k, v)]

/-- One iteration of the `for i in times` loop (lines 137-185): select the
source rows for period `i`, dispatch on `weights_method` (passing a copy of
the target frame where the source does, and the frame itself where it does
not), build the per-period profile, and store it in the accumulation dict. -/
def harmonizeStep (ρ : Type) (prims : Prims ρ) (weights_method : String)
    (extensive_variables intensive_variables : Option (List String))
    (allocate_total : Bool) (raster_path : Option String) (codes : List Int)
    (force_crs_match : Bool) (idxName time_col : String)
    (dfs : DFrame) (tvals : List Val)
    (acc : List (Val × DFrame) × DFrame) (i : Val) :
    Except PyError (List (Val × DFrame) × DFrame) := do
  let source_df := dfs.filterBy tvals (fun v => decide (v = i))
  let disp : Option (Mat × Mat) × DFrame :=
    if weights_method = "area" then
      let r := prims.areaInterpBinning source_df acc.2
        extensive_variables intensive_variables allocate_total
      (some (r.1, r.2.1), acc.2)
    else if weights_method = "land_type_area" then
      let rt := prims.areaTablesRaster source_df acc.2 raster_path codes force_crs_match
      let r := prims.areaInterpolate source_df acc.2
        extensive_variables intensive_variables allocate_total rt.1
      (some (r.1, r.2.1), r.2.2)
    else (none, acc.2)
  let profile ← buildProfile disp.1 extensive_variables intensive_variables
    disp.2 i idxName time_col
  pure (dictInsert acc.1 i profile, disp.2)

/-- Lines 130-132 of the source: the period partitioner, isolating the rows
whose period equals the target period and resetting their index. -/
def partitionTarget (dfs : DFrame) (tvals : List Val) (target_year : Val) :
    Except PyError DFrame :=
  (dfs.filterBy tvals (fun v => decide (v = target_year))).resetIndex

/-- The `harmonize` function of `tobler/harmonize.py`.  Mirrors the source
line by line: the short-circuiting emptiness check whose `raise` of a bare
string surfaces as a `TypeError`, the per-collection CRS presence check, the
pairwise CRS comparison, concatenation and period partitioning, the
per-period loop, and the final `gpd.GeoDataFrame(pd.concat(..., sort=True))`
— which is built without a `crs` argument, so the stored `crs` of line 128
is never reattached. -/
def harmonize (ρ : Type) (prims : Prims ρ) (raw_community : List GeoDFrame)
    (target_year : Val) (weights_method : String)
    (extensive_variables intensive_variables : Option (List String))
    (allocate_total : Bool) (raster_path : Option String) (codes : List Int)
    (force_crs_match : Bool) (idxName time_col : String) :
    Except PyError GeoDFrame := do
  let bothEmpty ← bothEmptyCheck extensive_variables intensive_variables
  if bothEmpty then
    throw (.typeError "exceptions must derive from BaseException")
  checkAllCrs raw_community
  let first ← (match raw_community with
    | [] => Except.error (.indexError "list index out of range")
    | g :: _ => Except.ok g)
  if !raw_community.all (fun g => decide (g.crs = first.crs)) then
    throw (.valueError "There is at least one pairwise difference in the CRS")
  let _crs := first.crs
  let dfs ← vconcat false (raw_community.map (·.df))
  let tvals ← dfs.col! time_col
  let times := pdUnique tvals
  let target_df ← partitionTarget dfs tvals target_year
  let dict0 : List (Val × DFrame) := [(target_year, target_df)]
  let res ← times.foldlM
    (harmonizeStep ρ prims weights_method extensive_variables intensive_variables
      allocate_total raster_path codes force_crs_match idxName time_col dfs tvals)
    (dict0, target_df)
  let harmonized ← vconcat true (res.1.map (·.2))
  pure ⟨harmonized, none⟩

/-- The call of `harmonize` with every optional Python argument at its default value:
`weights_method="area"`, both variable lists `None`, `allocate_total=True`,
`raster_path=None`, `codes=[21, 22, 23, 24]`, `force_crs_match=True`,
`index="geoid"`, `time_col="year"`. -/
def harmonizeDefaults (ρ : Type) (prims : Prims ρ) (raw_community : List GeoDFrame)
    (target_year : Val) : Except PyError GeoDFrame :=
  harmonize ρ prims raw_community target_year "area" none none true none
    [21, 22, 23, 24] true "geoid" "year"

/-- The keys of an accumulation dict, in order. -/
def dictKeys (d : List (Val × DFrame)) : List Val := d.map (·.1)

/-! The collaborator contracts of the interpolation primitives (spec section
6): the returned arrays are row-aligned to the target frame handed to the
primitive, with one column per requested variable (the successful runs of the
source additionally require the intensive array to be as wide as the
extensive name list, since line 177 labels it with the extensive names).  For
`area_interpolate`, which receives the target frame itself rather than a
copy, the contract also records that the primitive hands the target back
unmutated. -/

def BinningContract (ρ : Type) (prims : Prims ρ) (ext intens : List String)
    (alloc : Bool) : Prop :=
  ∀ s t, (prims.areaInterpBinning s t (some ext) (some intens) alloc).1.length = t.nrows
    ∧ (prims.areaInterpBinning s t (some ext) (some intens) alloc).2.1.length = t.nrows
    ∧ (∀ r ∈ (prims.areaInterpBinning s t (some ext) (some intens) alloc).1,
        r.length = ext.length)
    ∧ (∀ r ∈ (prims.areaInterpBinning s t (some ext) (some intens) alloc).2.1,
        r.length = ext.length)

def InterpContract (ρ : Type) (prims : Prims ρ) (ext intens : List String)
    (alloc : Bool) : Prop :=
  ∀ s t tab, (prims.areaInterpolate s t (some ext) (some intens) alloc tab).1.length = t.nrows
    ∧ (prims.areaInterpolate s t (some ext) (some intens) alloc tab).2.1.length = t.nrows
    ∧ (∀ r ∈ (prims.areaInterpolate s t (some ext) (some intens) alloc tab).1,
        r.length = ext.length)
    ∧ (∀ r ∈ (prims.areaInterpolate s t (some ext) (some intens) alloc tab).2.1,
        r.length = ext.length)
    ∧ (prims.areaInterpolate s t (some ext) (some intens) alloc tab).2.2 = t

/-- The per-period profile that a successful loop iteration stores for
period `i`, extracted from a run of the step on an empty dict. -/
def stepProfile (ρ : Type) (prims : Prims ρ) (wm : String)
    (ext intens : Option (List String)) (alloc : Bool) (rp : Option String)
    (codes : List Int) (fcm : Bool) (idxName tc : String)
    (dfs : DFrame) (tvals : List Val) (td : DFrame) (i : Val) : DFrame :=
  match harmonizeStep ρ prims wm ext intens alloc rp codes fcm idxName tc
      dfs tvals ([], td) i with
  | .ok (l, _) =>
    match l with
    | [(_, p)] => p
    | _ => default
  | .error _ => default

/-- A copy of `prims` with the mutation component of every primitive replaced by the
target frame that was handed in — i.e. the same primitives, never mutating
their target argument — and the numeric results untouched. -/
def sanitize (ρ : Type) (prims : Prims ρ) : Prims ρ where
  areaInterpBinning s t e i a :=
    ((prims.areaInterpBinning s t e i a).1, (prims.areaInterpBinning s t e i a).2.1, t)
  areaTablesRaster s t r cs f := ((prims.areaTablesRaster s t r cs f).1, t)
  areaInterpolate s t e i a tab :=
    ((prims.areaInterpolate s t e i a tab).1,
      (prims.areaInterpolate s t e i a tab).2.1, t)

/-- The coordinate reference system carried by a successful result, `none` as
outer value when the run failed. -/
def resultCrs : Except PyError GeoDFrame → Option (Option String)
  | .ok g => some g.crs
  | .error _ => none

/-- Whether a run succeeded. -/
def exceptIsOk {α : Type} : Except PyError α → Bool
  | .ok _ => true
  | .error _ => false

/-- The geometry column of a successful result, `none` when the run failed
or the column is absent. -/
def resultGeom : Except PyError GeoDFrame → Option (List Val)
  | .ok g => g.df.col? "geometry"
  | .error _ => none

/-- The usage message of line 115 of the source, which the `raise` of a bare
string never delivers to the caller. -/
def usageMsg : String :=
  "You must pass a set of extensive and/or intensive variables to interpolate"

/-! Concrete test data: two single-period collections of two records each
(years 2000 and 2010), sharing one CRS, plus variants used to exercise the
error paths, and simple conforming interpolation primitives. -/

def dfA : DFrame :=
  ⟨[0, 1], [("geoid", [.vStr "a", .vStr "b"]),
    ("geometry", [.vGeom 1, .vGeom 2]),
    ("pop", [.vInt 10, .vInt 20]),
    ("year", [.vStr "2000", .vStr "2000"])]⟩

def dfB : DFrame :=
  ⟨[0, 1], [("geoid", [.vStr "c", .vStr "d"]),
    ("geometry", [.vGeom 3, .vGeom 4]),
    ("pop", [.vInt 30, .vInt 40]),
    ("year", [.vStr "2010", .vStr "2010"])]⟩

def gA : GeoDFrame := ⟨dfA, some "epsg:4326"⟩

def gB : GeoDFrame := ⟨dfB, some "epsg:4326"⟩

/-- A collection with no CRS defined. -/
def gNoCrs : GeoDFrame := ⟨dfB, none⟩

/-- A collection whose CRS differs from `gA`. -/
def gOtherCrs : GeoDFrame := ⟨dfB, some "epsg:3857"⟩

/-- A collection with the usual columns but no rows. -/
def gNoRows : GeoDFrame :=
  ⟨⟨[], [("geoid", []), ("geometry", []), ("pop", []), ("year", [])]⟩,
    some "epsg:4326"⟩

/-- A single-record collection whose row carries the index label 7, to watch
what `reset_index` does with it. -/
def dfLabel7 : DFrame :=
  ⟨[7], [("geoid", [.vStr "z"]), ("geometry", [.vGeom 9]),
    ("pop", [.vInt 5]), ("year", [.vStr "2010"])]⟩

/-- Simple interpolation primitives satisfying the collaborator contract:
constant numeric outputs, row-aligned to the target, one column per
extensive variable, and no mutation of the target. -/
def tPrims : Prims Unit where
  areaInterpBinning _ t e _ _ :=
    (t.index.map (fun _ => (e.getD []).map (fun _ => Val.vInt 1)),
      t.index.map (fun _ => (e.getD []).map (fun _ => Val.vInt 2)), t)
  areaTablesRaster _ t _ _ _ := ((), t)
  areaInterpolate _ t e _ _ _ :=
    (t.index.map (fun _ => (e.getD []).map (fun _ => Val.vInt 5)),
      t.index.map (fun _ => (e.getD []).map (fun _ => Val.vInt 6)), t)

/-- A copy of `tPrims` with an `area_interpolate` that additionally mutates the target
frame it is handed: it overwrites the geometry column.  Its numeric outputs
are identical to those of `tPrims`. -/
def mutPrims : Prims Unit :=
  { tPrims with
    areaInterpolate := fun s t e i a tab =>
      ((tPrims.areaInterpolate s t e i a tab).1,
        (tPrims.areaInterpolate s t e i a tab).2.1,
        t.putCol "geometry" (t.index.map (fun _ => Val.vGeom 99))) }

/-- The concatenation of `dfA` and `dfB`, as `pd.concat` builds it. -/
def dfsAB : DFrame :=
  ⟨[0, 1, 0, 1], [("geoid", [.vStr "a", .vStr "b", .vStr "c", .vStr "d"]),
    ("geometry", [.vGeom 1, .vGeom 2, .vGeom 3, .vGeom 4]),
    ("pop", [.vInt 10, .vInt 20, .vInt 30, .vInt 40]),
    ("year", [.vStr "2000", .vStr "2000", .vStr "2010", .vStr "2010"])]⟩

/-- The time-period column of `dfsAB`. -/
def tvalsAB : List Val :=
  [.vStr "2000", .vStr "2000", .vStr "2010", .vStr "2010"]

/-- The target frame the period partitioner extracts from `dfsAB` for the
target period 2010. -/
def tdAB : DFrame :=
  ⟨[0, 1], [("index", [.vInt 0, .vInt 1]),
    ("geoid", [.vStr "c", .vStr "d"]),
    ("geometry", [.vGeom 3, .vGeom 4]),
    ("pop", [.vInt 30, .vInt 40]),
    ("year", [.vStr "2010", .vStr "2010"])]⟩

/-- The target frame the period partitioner extracts from `dfLabel7`. -/
def tdLabel7 : DFrame :=
  ⟨[0], [("index", [.vInt 7]), ("geoid", [.vStr "z"]), ("geometry", [.vGeom 9]),
    ("pop", [.vInt 5]), ("year", [.vStr "2010"])]⟩

/-! Basic lemmas about the embedded pandas operations. -/

theorem ok_bind {α β : Type} (a : α) (f : α → Except PyError β) :
    (Except.ok a : Except PyError α) >>= f = f a := rfl

theorem error_bind {α β : Type} (e : PyError) (f : α → Except PyError β) :
    (Except.error e : Except PyError α) >>= f = Except.error e := rfl

theorem throw_eq {α : Type} (e : PyError) :
    (throw e : Except PyError α) = Except.error e := rfl

theorem length_natRange (n : Nat) : (natRange n).length = n := by
  simp [natRange]

theorem natRange_nodup (n : Nat) : (natRange n).Nodup :=
  List.Nodup.map (fun _ _ h => Int.ofNat.inj h) (List.nodup_range n)

theorem lookupLabel_cons_same (x : Int) (v : Val) (idx : List Int) (vals : List Val) :
    lookupLabel (x :: idx) (v :: vals) x = v := by
  simp [lookupLabel]

theorem lookupLabel_cons_ne (x : Int) (v : Val) (idx : List Int) (vals : List Val)
    (ℓ : Int) (h : ℓ ≠ x) :
    lookupLabel (x :: idx) (v :: vals) ℓ = lookupLabel idx vals ℓ := by
  simp [lookupLabel, List.find?_cons_of_neg, Ne.symm h]

theorem align_self (idx : List Int) (vals : List Val) (hnd : idx.Nodup)
    (hlen : vals.length = idx.length) : idx.map (lookupLabel idx vals) = vals := by
  induction idx generalizing vals with
  | nil =>
    cases vals with
    | nil => rfl
    | cons v vs => simp at hlen
  | cons x xs ih =>
    cases vals with
    | nil => simp at hlen
    | cons v vs =>
      have hx : x ∉ xs := (List.nodup_cons.mp hnd).1
      have hxs : xs.Nodup := (List.nodup_cons.mp hnd).2
      have hl : vs.length = xs.length := by simpa using hlen
      simp only [List.map_cons, lookupLabel_cons_same]
      congr 1
      calc xs.map (lookupLabel (x :: xs) (v :: vs))
          = xs.map (lookupLabel xs vs) := by
            apply List.map_congr_left
            intro ℓ hℓ
            exact lookupLabel_cons_ne x v xs vs ℓ (fun he => hx (he ▸ hℓ))
        _ = vs := ih vs hxs hl

theorem alignVals_self (idx : List Int) (vals : List Val) (hnd : idx.Nodup)
    (hlen : vals.length = idx.length) : alignVals idx idx vals = vals :=
  align_self idx vals hnd hlen

theorem putCol_index (df : DFrame) (nm : String) (vs : List Val) :
    (df.putCol nm vs).index = df.index := by
  simp only [DFrame.putCol]
  split <;> rfl

theorem find?_put_same (l : List (String × List Val)) (nm : String) (vs : List Val)
    (h : nm ∈ l.map (·.1)) :
    (l.map (fun c => if c.1 = nm then (nm, vs) else c)).find?
      (fun c => decide (c.1 = nm)) = some (nm, vs) := by
  induction l with
  | nil => simp at h
  | cons c cs ih =>
    by_cases hc : c.1 = nm
    · simp [hc]
    · have h' : nm ∈ cs.map (·.1) := by
        rcases List.mem_map.mp h with ⟨p, hp, he⟩
        rcases List.mem_cons.mp hp with rfl | hmem
        · exact absurd he hc
        · exact List.mem_map.mpr ⟨p, hmem, he⟩
      simpa [hc] using ih h'

theorem find?_none_of_not_mem (l : List (String × List Val)) (nm : String)
    (h : nm ∉ l.map (·.1)) :
    l.find? (fun c => decide (c.1 = nm)) = none := by
  induction l with
  | nil => rfl
  | cons c cs ih =>
    have hc : c.1 ≠ nm := fun he => h (List.mem_map.mpr ⟨c, List.mem_cons_self c cs, he⟩)
    have h' : nm ∉ cs.map (·.1) := fun hm => h (List.mem_cons_of_mem _ hm)
    simpa [hc] using ih h'

theorem putCol_col?_same (df : DFrame) (nm : String) (vs : List Val) :
    (df.putCol nm vs).col? nm = some vs := by
  by_cases h : nm ∈ df.colNames
  · simp only [DFrame.putCol, if_pos h, DFrame.col?]
    rw [find?_put_same df.cols nm vs h]
    rfl
  · simp only [DFrame.putCol, if_neg h, DFrame.col?]
    rw [List.find?_append, find?_none_of_not_mem df.cols nm h]
    simp

theorem find?_put_other (l : List (String × List Val)) (nm nm' : String) (vs : List Val)
    (h : nm' ≠ nm) :
    (l.map (fun c => if c.1 = nm then (nm, vs) else c)).find?
      (fun c => decide (c.1 = nm')) = l.find? (fun c => decide (c.1 = nm')) := by
  induction l with
  | nil => rfl
  | cons c cs ih =>
    by_cases hc : c.1 = nm
    · simp only [List.map_cons, if_pos hc, List.find?_cons]
      have h1 : decide ((nm, vs).1 = nm') = false := by simp [Ne.symm h]
      have h2 : decide (c.1 = nm') = false := by simp [hc, Ne.symm h]
      rw [h1, h2]
      exact ih
    · by_cases hc' : c.1 = nm'
      · simp only [List.map_cons, if_neg hc, List.find?_cons]
        have h1 : decide (c.1 = nm') = true := by simp [hc']
        rw [h1]
      · simp only [List.map_cons, if_neg hc, List.find?_cons]
        have h1 : decide (c.1 = nm') = false := by simp [hc']
        rw [h1]
        exact ih

theorem putCol_col?_other (df : DFrame) (nm nm' : String) (vs : List Val)
    (h : nm' ≠ nm) : (df.putCol nm vs).col? nm' = df.col? nm' := by
  by_cases hm : nm ∈ df.colNames
  · simp only [DFrame.putCol, if_pos hm, DFrame.col?]
    rw [find?_put_other df.cols nm nm' vs h]
  · simp only [DFrame.putCol, if_neg hm, DFrame.col?]
    rw [List.find?_append]
    have : ([(nm, vs)].find? (fun c => decide (c.1 = nm'))) = none := by
      simp [Ne.symm h]
    cases hf : df.cols.find? (fun c => decide (c.1 = nm')) <;> simp [hf, this]

theorem map_const_replicate {α : Type} (l : List α) (v : Val) :
    l.map (fun _ => v) = List.replicate l.length v := by
  induction l with
  | nil => rfl
  | cons x xs ih => simp [ih, List.replicate_succ]

theorem matCols_names (mat : Mat) (cols : List String) :
    ∀ j, (matCols mat j cols).map (·.1) = cols := by
  induction cols with
  | nil => intro j; rfl
  | cons nm rest ih => intro j; simp [matCols, ih]

theorem matCols_lengths (mat : Mat) (cols : List String) :
    ∀ j, ∀ c ∈ matCols mat j cols, c.2.length = mat.length := by
  induction cols with
  | nil => intro j c hc; simp [matCols] at hc
  | cons nm rest ih =>
    intro j c hc
    rcases List.mem_cons.mp hc with rfl | hmem
    · simp
    · exact ih (j + 1) c hmem

theorem mkDFraw_index (mat : Mat) (cols : List String) :
    (mkDFraw mat cols).index = natRange mat.length := rfl

theorem mkDFraw_nrows (mat : Mat) (cols : List String) :
    (mkDFraw mat cols).nrows = mat.length := by
  simp [mkDFraw, DFrame.nrows, length_natRange]

theorem mkDFraw_colNames (mat : Mat) (cols : List String) :
    (mkDFraw mat cols).colNames = cols := by
  simp [mkDFraw, DFrame.colNames, matCols_names]

theorem mkDF_ok (mat : Mat) (cols : List String)
    (h : ∀ r ∈ mat, r.length = cols.length) :
    mkDF mat cols = Except.ok (mkDFraw mat cols) := by
  simp only [mkDF]
  rw [if_pos]
  rw [List.all_eq_true]
  intro r hr
  simp [h r hr]

theorem foldl_idxUnion_absorb (I : List Int) (l : List DFrame)
    (h : ∀ f ∈ l, f.index = I) :
    l.foldl (fun acc f => acc ++ f.index.filter (fun ℓ => decide (ℓ ∉ acc))) I = I := by
  induction l with
  | nil => rfl
  | cons f fs ih =>
    have hf : f.index = I := h f (List.mem_cons_self f fs)
    have habs : I.filter (fun ℓ => decide (ℓ ∉ I)) = [] := by
      apply List.filter_eq_nil_iff.mpr
      intro x hx
      simp [hx]
    simp only [List.foldl_cons, hf, habs, List.append_nil]
    exact ih (fun g hg => h g (List.mem_cons_of_mem _ hg))

theorem idxUnion_same (I : List Int) (d : DFrame) (ds : List DFrame)
    (h : ∀ f ∈ d :: ds, f.index = I) : idxUnion (d :: ds) = I := by
  have hd : d.index = I := h d (List.mem_cons_self d ds)
  have hfull : d.index.filter (fun ℓ => decide (ℓ ∉ ([] : List Int))) = I := by
    rw [hd]
    apply List.filter_eq_self.mpr
    intro x hx
    simp
  simp only [idxUnion, List.foldl_cons, List.nil_append, hfull]
  exact foldl_idxUnion_absorb I ds (fun g hg => h g (List.mem_cons_of_mem _ hg))

theorem reindexTo_self (df : DFrame) (hnd : df.index.Nodup)
    (hwf : ∀ c ∈ df.cols, c.2.length = df.index.length) :
    reindexTo df.index df = df := by
  rcases df with ⟨idx, cols⟩
  simp only [reindexTo, DFrame.mk.injEq, true_and]
  calc cols.map (fun c => (c.1, alignVals idx idx c.2))
      = cols.map (fun c => c) := by
        apply List.map_congr_left
        intro c hc
        rw [alignVals_self idx c.2 hnd (hwf c hc)]
    _ = cols := by simp

theorem pdConcatCols_same_index (I : List Int) (d : DFrame) (ds : List DFrame)
    (hnd : I.Nodup)
    (h : ∀ f ∈ d :: ds, f.index = I ∧ ∀ c ∈ f.cols, c.2.length = I.length) :
    pdConcatCols (d :: ds) = Except.ok ⟨I, ((d :: ds).map (·.cols)).flatten⟩ := by
  have hidx : idxUnion (d :: ds) = I := idxUnion_same I d ds (fun f hf => (h f hf).1)
  simp only [pdConcatCols, hidx, Except.ok.injEq, DFrame.mk.injEq, true_and]
  congr 1
  apply List.map_congr_left
  intro f hf
  have h1 := (h f hf).1
  have h2 := (h f hf).2
  rw [← h1]
  rw [reindexTo_self f (h1 ▸ hnd) (fun c hc => by rw [h2 c hc, h1])]

theorem vconcat_cons (sorted : Bool) (d : DFrame) (ds : List DFrame) :
    ∃ out, vconcat sorted (d :: ds) = Except.ok out ∧
      out.index = ((d :: ds).map (·.index)).flatten := by
  simp only [vconcat]
  exact ⟨_, rfl, rfl⟩

theorem sum_map_const_nat {α : Type} (l : List α) (f : α → Nat) (n : Nat)
    (h : ∀ x ∈ l, f x = n) : (l.map f).sum = l.length * n := by
  induction l with
  | nil => simp
  | cons x xs ih =>
    have hx : f x = n := h x (List.mem_cons_self x xs)
    simp only [List.map_cons, List.sum_cons, List.length_cons, hx,
      ih (fun y hy => h y (List.mem_cons_of_mem _ hy))]
    ring

/-! Lemmas about `pdUnique`. -/

theorem mem_foldl_unique (l : List Val) (y : Val) :
    ∀ acc, (y ∈ l.foldl (fun a x => if x ∈ a then a else a ++ [x]) acc ↔
      y ∈ acc ∨ y ∈ l) := by
  induction l with
  | nil => intro acc; simp
  | cons x xs ih =>
    intro acc
    simp only [List.foldl_cons]
    by_cases hx : x ∈ acc
    · rw [if_pos hx, ih acc]
      constructor
      · rintro (h | h)
        · exact Or.inl h
        · exact Or.inr (List.mem_cons_of_mem _ h)
      · rintro (h | h)
        · exact Or.inl h
        · rcases List.mem_cons.mp h with rfl | h
          · exact Or.inl hx
          · exact Or.inr h
    · rw [if_neg hx, ih (acc ++ [x])]
      simp only [List.mem_append, List.mem_singleton, List.mem_cons]
      tauto

theorem nodup_foldl_unique (l : List Val) :
    ∀ acc, acc.Nodup → (l.foldl (fun a x => if x ∈ a then a else a ++ [x]) acc).Nodup := by
  induction l with
  | nil => intro acc h; exact h
  | cons x xs ih =>
    intro acc h
    simp only [List.foldl_cons]
    by_cases hx : x ∈ acc
    · rw [if_pos hx]; exact ih acc h
    · rw [if_neg hx]
      apply ih
      rw [← List.concat_eq_append]
      exact List.Nodup.concat hx h

theorem pdUnique_nodup (xs : List Val) : (pdUnique xs).Nodup :=
  nodup_foldl_unique xs [] List.nodup_nil

theorem mem_pdUnique (xs : List Val) (y : Val) : y ∈ pdUnique xs ↔ y ∈ xs := by
  rw [pdUnique, mem_foldl_unique]
  simp

/-! Lemmas about the accumulation dict. -/

theorem dictInsert_keys (d : List (Val × DFrame)) (k : Val) (v : DFrame) :
    dictKeys (dictInsert d k v) =
      if k ∈ dictKeys d then dictKeys d else dictKeys d ++ [k] := by
  by_cases hk : k ∈ d.map (·.1)
  · simp only [dictKeys, dictInsert, if_pos hk, List.map_map]
    apply List.map_congr_left
    intro p _
    by_cases hp : p.1 = k
    · simp [hp]
    · simp [hp]
  · simp [dictKeys, dictInsert, hk]

theorem dictInsert_val_pred (P : DFrame → Prop) (d : List (Val × DFrame)) (k : Val)
    (v : DFrame) (hd : ∀ p ∈ d, P p.2) (hv : P v) :
    ∀ p ∈ dictInsert d k v, P p.2 := by
  intro p hp
  simp only [dictInsert] at hp
  split at hp
  · rcases List.mem_map.mp hp with ⟨q, hq, he⟩
    by_cases hqk : q.1 = k
    · rw [if_pos hqk] at he
      rw [← he]
      exact hv
    · rw [if_neg hqk] at he
      rw [← he]
      exact hd q hq
  · rcases List.mem_append.mp hp with h | h
    · exact hd p h
    · rcases List.mem_singleton.mp h with rfl
      exact hv

theorem dictKeys_length (d : List (Val × DFrame)) : (dictKeys d).length = d.length :=
  List.length_map d (·.1)

/-! Fold lemmas used to reason about the per-period loop. -/

theorem foldlM_ok_inv {α β : Type} (P : β → Prop) (l : List α)
    (f : β → α → Except PyError β) (g : β → α → β)
    (h : ∀ b a, P b → a ∈ l → f b a = Except.ok (g b a) ∧ P (g b a)) :
    ∀ b, P b → l.foldlM f b = Except.ok (l.foldl g b) ∧ P (l.foldl g b) := by
  induction l with
  | nil => intro b hb; exact ⟨rfl, hb⟩
  | cons a l ih =>
    intro b hb
    have ha := h b a hb (List.mem_cons_self a l)
    simp only [List.foldlM_cons, List.foldl_cons, ha.1, ok_bind]
    exact ih (fun b' a' hb' ha' => h b' a' hb' (List.mem_cons_of_mem _ ha')) _ ha.2

theorem keys_foldl_insert (l : List Val) (g : Val → DFrame) :
    ∀ d, dictKeys (l.foldl (fun a i => dictInsert a i (g i)) d) =
      l.foldl (fun ks i => if i ∈ ks then ks else ks ++ [i]) (dictKeys d) := by
  induction l with
  | nil => intro d; rfl
  | cons x xs ih =>
    intro d
    simp only [List.foldl_cons]
    rw [ih (dictInsert d x (g x)), dictInsert_keys]

theorem keysFold_length (l : List Val) (hnd : l.Nodup) :
    ∀ ks : List Val,
      (l.foldl (fun a i => if i ∈ a then a else a ++ [i]) ks).length =
        ks.length + (l.filter (fun i => decide (i ∉ ks))).length := by
  induction l with
  | nil => intro ks; simp
  | cons x xs ih =>
    intro ks
    have hx : x ∉ xs := (List.nodup_cons.mp hnd).1
    have hxs : xs.Nodup := (List.nodup_cons.mp hnd).2
    by_cases hm : x ∈ ks
    · simp only [List.foldl_cons, if_pos hm, List.filter_cons]
      have : decide (x ∉ ks) = false := by simp [hm]
      rw [this]
      exact ih hxs ks
    · simp only [List.foldl_cons, if_neg hm, List.filter_cons]
      have hdx : decide (x ∉ ks) = true := by simp [hm]
      rw [hdx]
      rw [ih hxs (ks ++ [x])]
      have hfe : xs.filter (fun i => decide (i ∉ ks ++ [x])) =
          xs.filter (fun i => decide (i ∉ ks)) := by
        apply List.filter_congr
        intro y hy
        have hyx : y ≠ x := fun he => hx (he ▸ hy)
        simp [List.mem_append, hyx]
      rw [hfe]
      simp only [List.length_append, List.length_cons, List.length_nil,
        List.length_singleton, if_true]
      simp
      omega

theorem filter_not_mem_single (l : List Val) (t : Val) (hnd : l.Nodup) (hm : t ∈ l) :
    (l.filter (fun i => decide (i ∉ [t]))).length + 1 = l.length := by
  induction l with
  | nil => simp at hm
  | cons x xs ih =>
    have hx : x ∉ xs := (List.nodup_cons.mp hnd).1
    have hxs : xs.Nodup := (List.nodup_cons.mp hnd).2
    by_cases hxt : x = t
    · subst hxt
      simp only [List.filter_cons]
      have h1 : decide (x ∉ [x]) = false := by simp
      rw [h1]
      have h2 : xs.filter (fun i => decide (i ∉ [x])) = xs := by
        apply List.filter_eq_self.mpr
        intro y hy
        have : y ≠ x := fun he => hx (he ▸ hy)
        simp [this]
      rw [h2]
      simp
    · have ht : t ∈ xs := by
        rcases List.mem_cons.mp hm with he | h
        · exact absurd he.symm hxt
        · exact h
      simp only [List.filter_cons]
      have h1 : decide (x ∉ [t]) = true := by simp [hxt]
      rw [h1]
      have h2 := ih hxs ht
      simp only [if_true, List.length_cons]
      simp at h2 ⊢
      omega

/-! Characterization of the per-period profile construction. -/

theorem ite_ok {α : Type} (c : Prop) [Decidable c] (a b : α) :
    (if c then (Except.ok a : Except PyError α) else Except.ok b) =
      Except.ok (if c then a else b) := by
  split <;> rfl

theorem profileBlocks_some (m1 m2 : Mat) (ext intens : List String)
    (w1 : ∀ r ∈ m1, r.length = ext.length) (w2 : ∀ r ∈ m2, r.length = ext.length) :
    profileBlocks (some (m1, m2)) (some ext) (some intens) =
      Except.ok ((if 0 < ext.length then [mkDFraw m1 ext] else []) ++
        (if 0 < intens.length then [mkDFraw m2 ext] else [])) := by
  by_cases hext : 0 < ext.length <;> by_cases hint : 0 < intens.length <;>
    simp [profileBlocks, pyLen, interpGet, hext, hint, ok_bind,
      mkDF_ok m1 ext w1, mkDF_ok m2 ext w2, pure, Except.pure]

theorem buildProfile_ok (m1 m2 : Mat) (ext intens : List String) (td : DFrame)
    (p : Val) (idxName tc : String) (geo ids : List Val)
    (hne : ¬(ext = [] ∧ intens = []))
    (h1 : m1.length = td.nrows) (h2 : m2.length = td.nrows)
    (w1 : ∀ r ∈ m1, r.length = ext.length) (w2 : ∀ r ∈ m2, r.length = ext.length)
    (hidx : td.index = natRange td.nrows)
    (hgeo : td.col? "geometry" = some geo) (hgl : geo.length = td.nrows)
    (hid : td.col? idxName = some ids) (hil : ids.length = td.nrows)
    (hin : idxName ≠ "geometry") (ht1 : tc ≠ "geometry") (ht2 : tc ≠ idxName) :
    ∃ prof, buildProfile (some (m1, m2)) (some ext) (some intens) td p idxName tc
        = Except.ok prof
      ∧ prof.index = td.index
      ∧ prof.col? "geometry" = some geo
      ∧ prof.col? idxName = some ids
      ∧ prof.col? tc = some (List.replicate td.nrows p) := by
  have hnd : td.index.Nodup := by rw [hidx]; exact natRange_nodup td.nrows
  have hIlen : td.index.length = td.nrows := rfl
  -- the concatenated profile blocks share the target index
  have hblocks := profileBlocks_some m1 m2 ext intens w1 w2
  set blocks := (if 0 < ext.length then [mkDFraw m1 ext] else []) ++
    (if 0 < intens.length then [mkDFraw m2 ext] else []) with hbdef
  have hball : ∀ f ∈ blocks, f.index = td.index ∧
      ∀ c ∈ f.cols, c.2.length = td.index.length := by
    intro f hf
    have hf' : f = mkDFraw m1 ext ∨ f = mkDFraw m2 ext := by
      rcases List.mem_append.mp hf with hm | hm
      · left
        split at hm <;> simp at hm
        exact hm
      · right
        split at hm <;> simp at hm
        exact hm
    rcases hf' with rfl | rfl
    · constructor
      · rw [mkDFraw_index, h1, hidx]
      · intro c hc
        rw [matCols_lengths m1 ext 0 c hc, h1, hIlen]
    · constructor
      · rw [mkDFraw_index, h2, hidx]
      · intro c hc
        rw [matCols_lengths m2 ext 0 c hc, h2, hIlen]
  have hbne : blocks ≠ [] := by
    rw [hbdef]
    rcases Nat.eq_zero_or_pos ext.length with he | he
    · have hi : 0 < intens.length := by
        rcases Nat.eq_zero_or_pos intens.length with hi | hi
        · exact absurd ⟨List.length_eq_zero.mp he, List.length_eq_zero.mp hi⟩ hne
        · exact hi
      simp [Nat.not_lt_of_le (Nat.le_of_eq he.symm), hi]
    · simp [he]
  obtain ⟨b0, bs, hbcons⟩ := List.exists_cons_of_ne_nil hbne
  have hconcat : pdConcatCols blocks =
      Except.ok ⟨td.index, (blocks.map (·.cols)).flatten⟩ := by
    rw [hbcons]
    rw [pdConcatCols_same_index td.index b0 bs hnd (by rw [← hbcons]; exact hball)]
  set profile : DFrame := ⟨td.index, (blocks.map (·.cols)).flatten⟩ with hpdef
  have hpidx : profile.index = td.index := rfl
  -- geometry attach
  have hgeoAlign : alignVals profile.index td.index geo = geo := by
    rw [hpidx]
    exact alignVals_self td.index geo hnd (by rw [hgl, hIlen])
  set p1 := profile.putCol "geometry" (alignVals profile.index td.index geo) with hp1def
  have hp1idx : p1.index = td.index := by rw [hp1def, putCol_index, hpidx]
  have hidAlign : alignVals p1.index td.index ids = ids := by
    rw [hp1idx]
    exact alignVals_self td.index ids hnd (by rw [hil, hIlen])
  set p2 := p1.putCol idxName (alignVals p1.index td.index ids) with hp2def
  have hp2idx : p2.index = td.index := by rw [hp2def, putCol_index, hp1idx]
  have htAlign : p2.index.map (fun _ => p) = List.replicate td.nrows p := by
    rw [map_const_replicate, hp2idx, hIlen]
  refine ⟨p2.putCol tc (p2.index.map (fun _ => p)), ?_, ?_, ?_, ?_, ?_⟩
  · simp only [buildProfile, hblocks, ok_bind, hconcat, DFrame.col!,
      hgeo, hid]
    rfl
  · rw [putCol_index, hp2idx]
  · rw [putCol_col?_other _ tc "geometry" _ (Ne.symm ht1), hp2def,
      putCol_col?_other _ idxName "geometry" _ (Ne.symm hin), hp1def,
      hgeoAlign, putCol_col?_same]
  · rw [putCol_col?_other _ tc idxName _ (Ne.symm ht2), hp2def, hidAlign,
      putCol_col?_same]
  · rw [htAlign, putCol_col?_same]

/-! Lemmas about the CRS validation. -/

theorem checkAllCrs_ok (l : List GeoDFrame) (h : ∀ g ∈ l, g.crs ≠ none) :
    checkAllCrs l = Except.ok () := by
  induction l with
  | nil => rfl
  | cons g gs ih =>
    have hg : g.crs ≠ none := h g (List.mem_cons_self g gs)
    simp only [checkAllCrs, checkPresenceOfCrs, if_neg hg, ok_bind]
    exact ih (fun f hf => h f (List.mem_cons_of_mem _ hf))

theorem checkAllCrs_missing (l : List GeoDFrame) (h : ∃ g ∈ l, g.crs = none) :
    checkAllCrs l =
      Except.error (.valueError "The Coordinate Reference System is not present") := by
  induction l with
  | nil => simp at h
  | cons g gs ih =>
    by_cases hg : g.crs = none
    · simp [checkAllCrs, checkPresenceOfCrs, hg, throw_eq, error_bind]
    · have h' : ∃ f ∈ gs, f.crs = none := by
        rcases h with ⟨f, hf, hfc⟩
        rcases List.mem_cons.mp hf with rfl | hm
        · exact absurd hfc hg
        · exact ⟨f, hm, hfc⟩
      simp only [checkAllCrs, checkPresenceOfCrs, if_neg hg, ok_bind]
      exact ih h'

theorem harmonizeStep_ok (ρ : Type) (prims : Prims ρ) (wm : String)
    (ext intens : List String) (alloc : Bool) (rp : Option String) (codes : List Int)
    (fcm : Bool) (idxName tc : String) (dfs : DFrame) (tvals : List Val)
    (td : DFrame) (geo ids : List Val)
    (hne : ¬(ext = [] ∧ intens = []))
    (hmeth : (wm = "area" ∧ BinningContract ρ prims ext intens alloc) ∨
      (wm = "land_type_area" ∧ InterpContract ρ prims ext intens alloc))
    (hidx : td.index = natRange td.nrows)
    (hgeo : td.col? "geometry" = some geo) (hgl : geo.length = td.nrows)
    (hid : td.col? idxName = some ids) (hil : ids.length = td.nrows)
    (hin : idxName ≠ "geometry") (ht1 : tc ≠ "geometry") (ht2 : tc ≠ idxName) :
    ∀ i, ∃ prof,
      (∀ dict, harmonizeStep ρ prims wm (some ext) (some intens) alloc rp codes fcm
          idxName tc dfs tvals (dict, td) i = Except.ok (dictInsert dict i prof, td))
      ∧ prof.nrows = td.nrows
      ∧ prof.index = td.index
      ∧ prof.col? "geometry" = some geo
      ∧ prof.col? idxName = some ids
      ∧ prof.col? tc = some (List.replicate td.nrows i) := by
  intro i
  rcases hmeth with ⟨hw, hc⟩ | ⟨hw, hc⟩
  · subst hw
    obtain ⟨h1, h2, w1, w2⟩ :=
      hc (dfs.filterBy tvals (fun v => decide (v = i))) td
    obtain ⟨prof, heq, hpidx, hpg, hpi, hpt⟩ := buildProfile_ok
      (prims.areaInterpBinning (dfs.filterBy tvals (fun v => decide (v = i))) td
        (some ext) (some intens) alloc).1
      (prims.areaInterpBinning (dfs.filterBy tvals (fun v => decide (v = i))) td
        (some ext) (some intens) alloc).2.1
      ext intens td i idxName tc geo ids hne h1 h2 w1 w2 hidx hgeo hgl hid hil
      hin ht1 ht2
    refine ⟨prof, ?_, ?_, hpidx, hpg, hpi, hpt⟩
    · intro dict
      simp [harmonizeStep, heq, ok_bind, pure, Except.pure]
    · show prof.index.length = td.nrows
      rw [hpidx]
      rfl
  · subst hw
    obtain ⟨h1, h2, w1, w2, hmut⟩ :=
      hc (dfs.filterBy tvals (fun v => decide (v = i))) td
        (prims.areaTablesRaster (dfs.filterBy tvals (fun v => decide (v = i))) td
          rp codes fcm).1
    obtain ⟨prof, heq, hpidx, hpg, hpi, hpt⟩ := buildProfile_ok
      (prims.areaInterpolate (dfs.filterBy tvals (fun v => decide (v = i))) td
        (some ext) (some intens) alloc
        (prims.areaTablesRaster (dfs.filterBy tvals (fun v => decide (v = i))) td
          rp codes fcm).1).1
      (prims.areaInterpolate (dfs.filterBy tvals (fun v => decide (v = i))) td
        (some ext) (some intens) alloc
        (prims.areaTablesRaster (dfs.filterBy tvals (fun v => decide (v = i))) td
          rp codes fcm).1).2.1
      ext intens td i idxName tc geo ids hne h1 h2 w1 w2 hidx hgeo hgl hid hil
      hin ht1 ht2
    refine ⟨prof, ?_, ?_, hpidx, hpg, hpi, hpt⟩
    · intro dict
      simp [harmonizeStep, hmut, heq, ok_bind, pure, Except.pure]
    · show prof.index.length = td.nrows
      rw [hpidx]
      rfl

/-! Facts about the period partitioner and the emptiness check. -/

theorem partitionTarget_char (dfs : DFrame) (tvals : List Val) (ty : Val)
    (td : DFrame) (h : partitionTarget dfs tvals ty = Except.ok td) :
    td.index = natRange td.nrows
      ∧ td.col? "index" =
        some ((dfs.filterBy tvals (fun v => decide (v = ty))).index.map Val.vInt) := by
  simp only [partitionTarget, DFrame.resetIndex] at h
  split at h
  · exact absurd h (by simp)
  · have he : td = ⟨natRange (dfs.filterBy tvals (fun v => decide (v = ty))).nrows,
        ("index", (dfs.filterBy tvals (fun v => decide (v = ty))).index.map Val.vInt) ::
          (dfs.filterBy tvals (fun v => decide (v = ty))).cols⟩ := by
      cases h
      rfl
    subst he
    refine ⟨?_, ?_⟩
    · show natRange _ = natRange (natRange _).length
      rw [length_natRange]
    · simp [DFrame.col?]

theorem bothEmptyCheck_some (ext intens : List String) :
    bothEmptyCheck (some ext) (some intens) =
      Except.ok (decide (ext = []) && decide (intens = [])) := by
  by_cases he : ext = []
  · subst he
    by_cases hi : intens = []
    · subst hi
      rfl
    · simp [bothEmptyCheck, pyLen, ok_bind, List.length_eq_zero, hi, pure, Except.pure]
  · have : ext.length ≠ 0 := fun h => he (List.length_eq_zero.mp h)
    simp [bothEmptyCheck, pyLen, ok_bind, this, he, pure, Except.pure]

theorem foldl_insert_val_pred (P : DFrame → Prop) (F : Val → DFrame) (l : List Val)
    (hF : ∀ i ∈ l, P (F i)) :
    ∀ d, (∀ p ∈ d, P p.2) →
      ∀ p ∈ l.foldl (fun d i => dictInsert d i (F i)) d, P p.2 := by
  induction l with
  | nil => intro d hd; exact hd
  | cons x xs ih =>
    intro d hd
    simp only [List.foldl_cons]
    exact ih (fun i hi => hF i (List.mem_cons_of_mem _ hi)) _
      (dictInsert_val_pred P d x (F x) hd (hF x (List.mem_cons_self x xs)))

/-- C1: for every valid input whose target period occurs among the period
values of the concatenated collections, the combined table returned by
`harmonize` has exactly (number of rows in the target frame) × (number of
distinct values of the time-period column) rows. -/
theorem harmonize_row_count (ρ : Type) (prims : Prims ρ) (g0 : GeoDFrame)
    (raws : List GeoDFrame) (target_year : Val) (wm : String)
    (ext intens : List String) (alloc : Bool) (rp : Option String)
    (codes : List Int) (fcm : Bool) (idxName tc : String) (c : String)
    (dfs td : DFrame) (tvals geo ids : List Val)
    (hne : ¬(ext = [] ∧ intens = []))
    (hcrs : ∀ g ∈ g0 :: raws, g.crs = some c)
    (hmeth : (wm = "area" ∧ BinningContract ρ prims ext intens alloc) ∨
      (wm = "land_type_area" ∧ InterpContract ρ prims ext intens alloc))
    (hdfs : vconcat false ((g0 :: raws).map (·.df)) = Except.ok dfs)
    (htv : dfs.col? tc = some tvals)
    (htd : partitionTarget dfs tvals target_year = Except.ok td)
    (hmem : target_year ∈ pdUnique tvals)
    (hgeo : td.col? "geometry" = some geo) (hgl : geo.length = td.nrows)
    (hid : td.col? idxName = some ids) (hil : ids.length = td.nrows)
    (hin : idxName ≠ "geometry") (ht1 : tc ≠ "geometry") (ht2 : tc ≠ idxName) :
    ∃ out, harmonize ρ prims (g0 :: raws) target_year wm (some ext) (some intens)
        alloc rp codes fcm idxName tc = Except.ok out
      ∧ out.df.nrows = td.nrows * (pdUnique tvals).length := by
  have hidx : td.index = natRange td.nrows :=
    (partitionTarget_char dfs tvals target_year td htd).1
  -- the emptiness check passes
  have hbe : bothEmptyCheck (some ext) (some intens) = Except.ok false := by
    rw [bothEmptyCheck_some]
    rcases not_and_or.mp hne with h | h <;> simp [h]
  -- the CRS checks pass
  have hcrsok : checkAllCrs (g0 :: raws) = Except.ok () :=
    checkAllCrs_ok _ (fun g hg => by rw [hcrs g hg]; simp)
  have hall : ((g0 :: raws).all fun g => decide (g.crs = g0.crs)) = true := by
    rw [List.all_eq_true]
    intro g hg
    rw [hcrs g hg, hcrs g0 (List.mem_cons_self g0 raws)]
    simp
  -- the loop
  have hstep := harmonizeStep_ok ρ prims wm ext intens alloc rp codes fcm idxName tc
    dfs tvals td geo ids hne hmeth hidx hgeo hgl hid hil hin ht1 ht2
  set F : Val → DFrame := stepProfile ρ prims wm (some ext) (some intens) alloc rp
    codes fcm idxName tc dfs tvals td with hFdef
  have hF : ∀ a, (∀ dict, harmonizeStep ρ prims wm (some ext) (some intens) alloc rp
      codes fcm idxName tc dfs tvals (dict, td) a
        = Except.ok (dictInsert dict a (F a), td)) ∧ (F a).nrows = td.nrows := by
    intro a
    obtain ⟨prof, hdict, hnr, _, _, _, _⟩ := hstep a
    have hFa : F a = prof := by
      rw [hFdef]
      simp [stepProfile, hdict [], dictInsert]
    rw [hFa]
    exact ⟨hdict, hnr⟩
  have hloop := foldlM_ok_inv (fun acc => acc.2 = td) (pdUnique tvals)
    (harmonizeStep ρ prims wm (some ext) (some intens) alloc rp codes fcm idxName tc
      dfs tvals)
    (fun acc i => (dictInsert acc.1 i (F i), td))
    (by
      intro b a hb _
      obtain ⟨d, t⟩ := b
      simp only at hb
      subst hb
      exact ⟨(hF a).1 d, rfl⟩)
    ([(target_year, td)], td) rfl
  have hpair : ∀ (l : List Val) (d : List (Val × DFrame)),
      l.foldl (fun acc i => (dictInsert acc.1 i (F i), td)) (d, td)
        = (l.foldl (fun d i => dictInsert d i (F i)) d, td) := by
    intro l
    induction l with
    | nil => intro d; rfl
    | cons x xs ih =>
      intro d
      simp only [List.foldl_cons]
      exact ih _
  set D := (pdUnique tvals).foldl (fun d i => dictInsert d i (F i))
    [(target_year, td)] with hDdef
  -- every stored frame has the target row count
  have hvals : ∀ p ∈ D, p.2.nrows = td.nrows := by
    rw [hDdef]
    apply foldl_insert_val_pred (fun f => f.nrows = td.nrows) F _
      (fun i _ => (hF i).2)
    intro p hp
    rcases List.mem_singleton.mp hp with rfl
    rfl
  -- the dict ends with one entry per distinct period
  have hDlen : D.length = (pdUnique tvals).length := by
    have hk := keys_foldl_insert (pdUnique tvals) F [(target_year, td)]
    have hkl := keysFold_length (pdUnique tvals) (pdUnique_nodup tvals)
      (dictKeys [(target_year, td)])
    have hfl := filter_not_mem_single (pdUnique tvals) target_year
      (pdUnique_nodup tvals) hmem
    have h1 : (dictKeys D).length = (pdUnique tvals).length := by
      rw [hDdef, hk, hkl]
      simp only [dictKeys, List.map_cons, List.map_nil, List.length_singleton] at hfl ⊢
      omega
    rw [← dictKeys_length D, h1]
  have hDne : D.map (·.2) ≠ [] := by
    intro hcon
    have : D = [] := List.map_eq_nil_iff.mp hcon
    rw [this] at hDlen
    have : target_year ∈ ([] : List Val) := by
      have hl : (pdUnique tvals).length = 0 := by simpa using hDlen.symm
      rw [List.length_eq_zero.mp hl] at hmem
      exact hmem
    simp at this
  obtain ⟨v0, vs, hvcons⟩ := List.exists_cons_of_ne_nil hDne
  obtain ⟨out, hout, houtidx⟩ := vconcat_cons true v0 vs
  refine ⟨⟨out, none⟩, ?_, ?_⟩
  · simp only [harmonize, hbe, ok_bind, Bool.false_eq_true, if_false, hcrsok,
      hall, Bool.not_true, Bool.false_eq_true, if_false, hdfs, DFrame.col!, htv,
      htd, hloop.1, hpair, ← hDdef, hvcons, hout, ok_bind]
    rfl
  · have : out.index.length = D.length * td.nrows := by
      rw [houtidx, ← hvcons, List.length_flatten, List.map_map, List.map_map]
      exact sum_map_const_nat D _ td.nrows (fun p hp => hvals p hp)
    show out.index.length = td.nrows * (pdUnique tvals).length
    rw [this, hDlen, Nat.mul_comm]

/-! Behaviour when no dispatch branch assigned `interpolation`. -/

theorem profileBlocks_none (ext intens : List String)
    (hne : ¬(ext = [] ∧ intens = [])) :
    profileBlocks none (some ext) (some intens)
      = Except.error (.unboundLocalError "interpolation") := by
  by_cases he : ext = []
  · have hi : intens ≠ [] := fun h => hne ⟨he, h⟩
    subst he
    simp [profileBlocks, pyLen, interpGet, ok_bind, error_bind,
      List.length_pos.mpr hi]
  · simp [profileBlocks, pyLen, interpGet, ok_bind, error_bind,
      List.length_pos.mpr he]

theorem harmonizeStep_unknown (ρ : Type) (prims : Prims ρ) (wm : String)
    (ext intens : List String) (alloc : Bool) (rp : Option String)
    (codes : List Int) (fcm : Bool) (idxName tc : String)
    (dfs : DFrame) (tvals : List Val)
    (hne : ¬(ext = [] ∧ intens = []))
    (hwm1 : wm ≠ "area") (hwm2 : wm ≠ "land_type_area") :
    ∀ acc i, harmonizeStep ρ prims wm (some ext) (some intens) alloc rp codes fcm
        idxName tc dfs tvals acc i
      = Except.error (.unboundLocalError "interpolation") := by
  intro acc i
  simp [harmonizeStep, hwm1, hwm2, buildProfile,
    profileBlocks_none ext intens hne, error_bind]

/-! Column names of a columnwise concatenation. -/

theorem reindexTo_colNames (idx : List Int) (df : DFrame) :
    (reindexTo idx df).colNames = df.colNames := by
  simp only [reindexTo, DFrame.colNames, List.map_map]
  rfl

theorem pdConcatCols_colNames (d : DFrame) (ds : List DFrame) :
    ∃ p, pdConcatCols (d :: ds) = Except.ok p
      ∧ p.colNames = ((d :: ds).map (·.colNames)).flatten := by
  refine ⟨_, rfl, ?_⟩
  show (((d :: ds).map
      (fun f => (reindexTo (idxUnion (d :: ds)) f).cols)).flatten).map (·.1) = _
  rw [List.map_flatten, List.map_map]
  congr 1
  apply List.map_congr_left
  intro f _
  exact reindexTo_colNames (idxUnion (d :: ds)) f

/-- C2: for every valid input and every distinct period `p`, the per-period
result table stored by the loop for `p` carries, at the same row position
(the table shares the fresh range index of the target frame), the geometry and
identifier of the corresponding target-frame row, and a time-period column
constantly equal to `p`; hence the geometry of every output row equals the
geometry of the corresponding target polygon, identically across all period
groups. -/
theorem harmonize_profile_carries_target (ρ : Type) (prims : Prims ρ) (wm : String)
    (ext intens : List String) (alloc : Bool) (rp : Option String) (codes : List Int)
    (fcm : Bool) (idxName tc : String) (dfs : DFrame) (tvals : List Val)
    (td : DFrame) (geo ids : List Val)
    (hne : ¬(ext = [] ∧ intens = []))
    (hmeth : (wm = "area" ∧ BinningContract ρ prims ext intens alloc) ∨
      (wm = "land_type_area" ∧ InterpContract ρ prims ext intens alloc))
    (hidx : td.index = natRange td.nrows)
    (hgeo : td.col? "geometry" = some geo) (hgl : geo.length = td.nrows)
    (hid : td.col? idxName = some ids) (hil : ids.length = td.nrows)
    (hin : idxName ≠ "geometry") (ht1 : tc ≠ "geometry") (ht2 : tc ≠ idxName) :
    ∀ i, ∃ prof,
      (∀ dict, harmonizeStep ρ prims wm (some ext) (some intens) alloc rp codes fcm
          idxName tc dfs tvals (dict, td) i = Except.ok (dictInsert dict i prof, td))
      ∧ prof.index = td.index
      ∧ prof.col? "geometry" = some geo
      ∧ prof.col? idxName = some ids
      ∧ prof.col? tc = some (List.replicate td.nrows i) := by
  intro i
  obtain ⟨prof, hd, _, hix, hg, hi2, ht⟩ := harmonizeStep_ok ρ prims wm ext intens
    alloc rp codes fcm idxName tc dfs tvals td geo ids hne hmeth hidx hgeo hgl
    hid hil hin ht1 ht2 i
  exact ⟨prof, hd, hix, hg, hi2, ht⟩

/-- C7: for every valid input with a non-empty intensive list (and non-empty
extensive list, as any successful such run requires), the per-period table
wrapping the second interpolation array is built with the extensive variable
names as column headers — not the intensive names — and is concatenated
columnwise after the extensive-derived table, so the combined per-period
profile has header list `ext ++ ext`. -/
theorem intensive_block_uses_extensive_names (m1 m2 : Mat) (ext intens : List String)
    (hext : ext ≠ []) (hint : intens ≠ [])
    (w1 : ∀ r ∈ m1, r.length = ext.length) (w2 : ∀ r ∈ m2, r.length = ext.length) :
    profileBlocks (some (m1, m2)) (some ext) (some intens)
        = Except.ok [mkDFraw m1 ext, mkDFraw m2 ext]
      ∧ (mkDFraw m2 ext).colNames = ext
      ∧ ∃ p, pdConcatCols [mkDFraw m1 ext, mkDFraw m2 ext] = Except.ok p
          ∧ p.colNames = ext ++ ext := by
  have h1 : 0 < ext.length := List.length_pos.mpr hext
  have h2 : 0 < intens.length := List.length_pos.mpr hint
  refine ⟨?_, mkDFraw_colNames m2 ext, ?_⟩
  · rw [profileBlocks_some m1 m2 ext intens w1 w2, if_pos h1, if_pos h2]
    rfl
  · obtain ⟨p, hp, hn⟩ := pdConcatCols_colNames (mkDFraw m1 ext) [mkDFraw m2 ext]
    refine ⟨p, hp, ?_⟩
    rw [hn]
    simp [mkDFraw_colNames]

/-- C3 amended: when both variable lists are empty, `harmonize` fails at the
emptiness check — before any CRS check or interpolation, whatever the input
collections and primitives — but the error the caller observes is the
`TypeError` produced by raising a bare string, not an exception carrying the
documented usage message. -/
theorem both_empty_fails_before_crs_check (ρ : Type) (prims : Prims ρ)
    (raw : List GeoDFrame) (ty : Val) (wm : String) (alloc : Bool)
    (rp : Option String) (codes : List Int) (fcm : Bool) (idxName tc : String) :
    harmonize ρ prims raw ty wm (some []) (some []) alloc rp codes fcm idxName tc
      = Except.error (.typeError "exceptions must derive from BaseException")
    ∧ PyError.typeError "exceptions must derive from BaseException"
      ≠ PyError.valueError usageMsg :=
  ⟨rfl, by simp⟩

/-- C3 counterexample: on a concrete both-empty call whose collections
disagree on their CRS, the run fails with the bare-string `TypeError` — not
with an exception carrying the usage message, and not with the CRS error
(the failure precedes the CRS check). -/
theorem both_empty_usage_error_counterexample :
    harmonize Unit tPrims [gA, gOtherCrs] (.vStr "2010") "area" (some []) (some [])
        true none [21, 22, 23, 24] true "geoid" "year"
      = Except.error (.typeError "exceptions must derive from BaseException")
    ∧ PyError.typeError "exceptions must derive from BaseException"
      ≠ PyError.valueError usageMsg :=
  ⟨rfl, by simp⟩

/-- C4: with at least one variable requested, a collection lacking a CRS
makes `harmonize` fail with the missing-reference-system error, and — all
CRS being present — a collection whose CRS differs from that of the first
collection makes it fail with the mismatch error; both failures hold for
every choice of interpolation primitives, i.e. before any primitive is
invoked. -/
theorem crs_errors_precede_interpolation (ρ : Type) (prims : Prims ρ)
    (g0 : GeoDFrame) (raws : List GeoDFrame) (ty : Val) (wm : String)
    (ext intens : List String) (alloc : Bool) (rp : Option String)
    (codes : List Int) (fcm : Bool) (idxName tc : String)
    (hne : ¬(ext = [] ∧ intens = [])) :
    ((∃ g ∈ g0 :: raws, g.crs = none) →
      harmonize ρ prims (g0 :: raws) ty wm (some ext) (some intens) alloc rp codes
          fcm idxName tc
        = Except.error (.valueError "The Coordinate Reference System is not present"))
    ∧ ((∀ g ∈ g0 :: raws, g.crs ≠ none) → (∃ g ∈ g0 :: raws, g.crs ≠ g0.crs) →
      harmonize ρ prims (g0 :: raws) ty wm (some ext) (some intens) alloc rp codes
          fcm idxName tc
        = Except.error
            (.valueError "There is at least one pairwise difference in the CRS")) := by
  have hbe : bothEmptyCheck (some ext) (some intens) = Except.ok false := by
    rw [bothEmptyCheck_some]
    rcases not_and_or.mp hne with h | h <;> simp [h]
  constructor
  · intro hex
    have hc := checkAllCrs_missing (g0 :: raws) hex
    simp [harmonize, hbe, ok_bind, hc, error_bind]
  · intro hall hex
    have hc := checkAllCrs_ok (g0 :: raws) hall
    have hfalse : ((g0 :: raws).all fun g => decide (g.crs = g0.crs)) = false := by
      rw [List.all_eq_false]
      obtain ⟨g, hg, hne'⟩ := hex
      exact ⟨g, hg, by simpa using hne'⟩
    simp only [harmonize, hbe, ok_bind, Bool.false_eq_true, if_false, hc, hfalse,
      Bool.not_false, eq_self_iff_true, if_true, throw_eq, error_bind]
    rfl

/-- C5 amended: a `weights_method` that is neither `area` nor
`land_type_area` makes `harmonize` fail — it does not silently return an
empty or undefined result — but the error is an `UnboundLocalError` on the
never-assigned local `interpolation`, not an explicit unsupported-method
error. -/
theorem unknown_method_unbound_local (ρ : Type) (prims : Prims ρ)
    (g0 : GeoDFrame) (raws : List GeoDFrame) (ty : Val) (wm : String)
    (ext intens : List String) (alloc : Bool) (rp : Option String)
    (codes : List Int) (fcm : Bool) (idxName tc : String) (c : String)
    (dfs td : DFrame) (tvals : List Val) (t0 : Val) (rest : List Val)
    (hne : ¬(ext = [] ∧ intens = []))
    (hwm1 : wm ≠ "area") (hwm2 : wm ≠ "land_type_area")
    (hcrs : ∀ g ∈ g0 :: raws, g.crs = some c)
    (hdfs : vconcat false ((g0 :: raws).map (·.df)) = Except.ok dfs)
    (htv : dfs.col? tc = some tvals)
    (htimes : pdUnique tvals = t0 :: rest)
    (htd : partitionTarget dfs tvals ty = Except.ok td) :
    harmonize ρ prims (g0 :: raws) ty wm (some ext) (some intens) alloc rp codes fcm
        idxName tc
      = Except.error (.unboundLocalError "interpolation") := by
  have hbe : bothEmptyCheck (some ext) (some intens) = Except.ok false := by
    rw [bothEmptyCheck_some]
    rcases not_and_or.mp hne with h | h <;> simp [h]
  have hcrsok : checkAllCrs (g0 :: raws) = Except.ok () :=
    checkAllCrs_ok _ (fun g hg => by rw [hcrs g hg]; simp)
  have hall : ((g0 :: raws).all fun g => decide (g.crs = g0.crs)) = true := by
    rw [List.all_eq_true]
    intro g hg
    rw [hcrs g hg, hcrs g0 (List.mem_cons_self g0 raws)]
    simp
  have hstep := harmonizeStep_unknown ρ prims wm ext intens alloc rp codes fcm
    idxName tc dfs tvals hne hwm1 hwm2
  simp only [harmonize, hbe, ok_bind, Bool.false_eq_true, if_false, hcrsok, hall,
    Bool.not_true, if_false, hdfs, DFrame.col!, htv, htd, htimes,
    List.foldlM_cons, hstep, error_bind]
  rfl

/-- C5 counterexample: a concrete, otherwise valid call with
`weights_method="land_type_Poisson_regression"` fails with the
`UnboundLocalError` on `interpolation` — an implicit error, not an explicit
unsupported-method error. -/
theorem unknown_method_counterexample :
    harmonize Unit tPrims [gA, gB] (.vStr "2010") "land_type_Poisson_regression"
        (some ["pop"]) (some []) true none [21, 22, 23, 24] true "geoid" "year"
      = Except.error (.unboundLocalError "interpolation") := by
  rfl

/-- C6: on a concrete valid input whose collections share the CRS
`epsg:4326`, the returned combined table carries no coordinate reference
system at all — the `crs` stored at line 128 of the source is never
reattached, contradicting the comment at line 127 (`store the input crs so
we can reassign it at the end`) and the spec. -/
theorem combined_table_loses_crs :
    resultCrs (harmonize Unit tPrims [gA, gB] (.vStr "2010") "area" (some ["pop"])
        (some []) true none [21, 22, 23, 24] true "geoid" "year")
      = some none
    ∧ [gA, gB].map (·.crs) = [some "epsg:4326", some "epsg:4326"] :=
  ⟨rfl, rfl⟩

/-- C8 amended: the target frame extracted by the period partitioner has a
fresh 0-based row index, but the original row index is not discarded: its
labels are retained as a new column named `index` in the target frame. -/
theorem partition_keeps_original_labels (dfs : DFrame) (tvals : List Val)
    (ty : Val) (td : DFrame) (h : partitionTarget dfs tvals ty = Except.ok td) :
    td.index = natRange td.nrows
      ∧ td.col? "index" =
        some ((dfs.filterBy tvals (fun v => decide (v = ty))).index.map Val.vInt) :=
  partitionTarget_char dfs tvals ty td h

/-- C8 counterexample: partitioning a concrete frame whose only 2010-row
carries the original index label 7 yields a target frame in which that label
reappears as the extra column `index`. -/
theorem partition_labels_reappear_counterexample :
    (partitionTarget dfLabel7 [Val.vStr "2010"] (Val.vStr "2010")).map
        (fun td => td.col? "index")
      = Except.ok (some [Val.vInt 7]) := by
  rfl

/-- C9 amended: in the `area` branch, every interpolation primitive receives
a fresh copy of the target frame, so the result never depends on the
mutation a primitive applies to its target argument: running with any
primitives is the same as running with the sanitized, never-mutating
versions.  (The `land_type_area` branch does not enjoy this property, since
line 164 passes `target_df` itself to `area_interpolate`.) -/
theorem area_branch_copy_shields_mutation (ρ : Type) (prims : Prims ρ)
    (raw : List GeoDFrame) (ty : Val) (evars ivars : Option (List String))
    (alloc : Bool) (rp : Option String) (codes : List Int) (fcm : Bool)
    (idxName tc : String) :
    harmonize ρ prims raw ty "area" evars ivars alloc rp codes fcm idxName tc
      = harmonize ρ (sanitize ρ prims) raw ty "area" evars ivars alloc rp codes fcm
          idxName tc := by
  have hstepeq : harmonizeStep ρ prims "area" evars ivars alloc rp codes fcm
        idxName tc
      = harmonizeStep ρ (sanitize ρ prims) "area" evars ivars alloc rp codes fcm
          idxName tc := by
    funext dfs tvals acc i
    simp [harmonizeStep, sanitize]
  simp only [harmonize, hstepeq]

/-- C9 counterexample: in the `land_type_area` branch the interpolation
primitive receives the target frame itself, so a primitive that mutates its
target changes the result: `mutPrims` differs from `tPrims` only in the
mutation its `area_interpolate` applies to the handed-in target (their
numeric outputs coincide), yet the two runs disagree. -/
theorem land_type_area_mutation_observed_counterexample :
    resultGeom (harmonize Unit tPrims [gA, gB] (.vStr "2010") "land_type_area"
        (some ["pop"]) (some []) true none [21, 22, 23, 24] true "geoid" "year")
      ≠ resultGeom (harmonize Unit mutPrims [gA, gB] (.vStr "2010") "land_type_area"
        (some ["pop"]) (some []) true none [21, 22, 23, 24] true "geoid" "year") := by
  decide

/-- C10 amended: a call leaving `extensive_variables` at `None` fails with
the `len(None)` type error at the initial emptiness check, as does a call
with an empty extensive list and `intensive_variables` at `None`; the
both-empty usage branch raises a bare string, observed as a `TypeError`
rather than as an exception carrying the usage message.  But when
`extensive_variables` is non-empty and `intensive_variables` is `None`, the
initial check short-circuits past `len(None)`, so any type error arises only
later, inside the per-period loop — or never, as the counterexample shows. -/
theorem none_variable_lists_type_errors :
    (∀ (ρ : Type) (prims : Prims ρ) (raw : List GeoDFrame) (ty : Val) (wm : String)
        (iv : Option (List String)) (alloc : Bool) (rp : Option String)
        (codes : List Int) (fcm : Bool) (idxName tc : String),
      harmonize ρ prims raw ty wm none iv alloc rp codes fcm idxName tc
        = Except.error (.typeError "object of type NoneType has no len"))
    ∧ (∀ (ρ : Type) (prims : Prims ρ) (raw : List GeoDFrame) (ty : Val)
        (wm : String) (alloc : Bool) (rp : Option String) (codes : List Int)
        (fcm : Bool) (idxName tc : String),
      harmonize ρ prims raw ty wm (some []) none alloc rp codes fcm idxName tc
        = Except.error (.typeError "object of type NoneType has no len"))
    ∧ (∀ (ρ : Type) (prims : Prims ρ) (raw : List GeoDFrame) (ty : Val)
        (wm : String) (alloc : Bool) (rp : Option String) (codes : List Int)
        (fcm : Bool) (idxName tc : String),
      harmonize ρ prims raw ty wm (some []) (some []) alloc rp codes fcm idxName tc
        = Except.error (.typeError "exceptions must derive from BaseException")
        ∧ PyError.typeError "exceptions must derive from BaseException"
          ≠ PyError.valueError usageMsg) := by
  refine ⟨?_, ?_, ?_⟩ <;> intros
  · rfl
  · rfl
  · exact ⟨rfl, by simp⟩

/-- C10 counterexample: a concrete call with a non-empty extensive list and
`intensive_variables` left at `None` does not fail at the initial emptiness
check — on collections with no rows it does not fail at all, returning a
result. -/
theorem none_default_returns_ok_counterexample :
    exceptIsOk (harmonize Unit tPrims [gNoRows] (.vStr "2010") "area"
        (some ["pop"]) none true none [21, 22, 23, 24] true "geoid" "year")
      = true := by
  rfl

/-! Witness runs at concrete inputs. -/

theorem tPrims_binning_contract : BinningContract Unit tPrims ["pop"] [] true := by
  intro s t
  refine ⟨?_, ?_, ?_, ?_⟩
  · simp [tPrims, DFrame.nrows]
  · simp [tPrims, DFrame.nrows]
  · intro r hr
    simp only [tPrims] at hr
    rcases List.mem_map.mp hr with ⟨x, _, rfl⟩
    rfl
  · intro r hr
    simp only [tPrims] at hr
    rcases List.mem_map.mp hr with ⟨x, _, rfl⟩
    rfl

theorem harmonize_row_count_witness :
    ∃ out, harmonize Unit tPrims [gA, gB] (.vStr "2010") "area" (some ["pop"])
        (some []) true none [21, 22, 23, 24] true "geoid" "year" = Except.ok out
      ∧ out.df.nrows = tdAB.nrows * (pdUnique tvalsAB).length :=
  harmonize_row_count Unit tPrims gA [gB] (.vStr "2010") "area" ["pop"] []
    true none [21, 22, 23, 24] true "geoid" "year" "epsg:4326" dfsAB tdAB
    tvalsAB [.vGeom 3, .vGeom 4] [.vStr "c", .vStr "d"]
    (by decide) (by decide) (Or.inl ⟨rfl, tPrims_binning_contract⟩) rfl rfl rfl
    (by decide) rfl (by decide) rfl (by decide) (by decide) (by decide) (by decide)

theorem harmonize_profile_carries_target_witness :
    ∃ prof, (∀ dict, harmonizeStep Unit tPrims "area" (some ["pop"]) (some [])
        true none [21, 22, 23, 24] true "geoid" "year" dfsAB tvalsAB (dict, tdAB)
          (.vStr "2000") = Except.ok (dictInsert dict (.vStr "2000") prof, tdAB))
      ∧ prof.index = tdAB.index
      ∧ prof.col? "geometry" = some [.vGeom 3, .vGeom 4]
      ∧ prof.col? "geoid" = some [.vStr "c", .vStr "d"]
      ∧ prof.col? "year" = some (List.replicate tdAB.nrows (.vStr "2000")) :=
  harmonize_profile_carries_target Unit tPrims "area" ["pop"] [] true none
    [21, 22, 23, 24] true "geoid" "year" dfsAB tvalsAB tdAB
    [.vGeom 3, .vGeom 4] [.vStr "c", .vStr "d"]
    (by decide) (Or.inl ⟨rfl, tPrims_binning_contract⟩) (by decide) rfl (by decide)
    rfl (by decide) (by decide) (by decide) (by decide) (.vStr "2000")

theorem crs_errors_precede_interpolation_witness :
    harmonize Unit tPrims [gA, gNoCrs] (.vStr "2010") "area" (some ["pop"])
        (some []) true none [21, 22, 23, 24] true "geoid" "year"
      = Except.error (.valueError "The Coordinate Reference System is not present")
    ∧ harmonize Unit tPrims [gA, gOtherCrs] (.vStr "2010") "area" (some ["pop"])
        (some []) true none [21, 22, 23, 24] true "geoid" "year"
      = Except.error
          (.valueError "There is at least one pairwise difference in the CRS") :=
  ⟨(crs_errors_precede_interpolation Unit tPrims gA [gNoCrs] (.vStr "2010") "area"
      ["pop"] [] true none [21, 22, 23, 24] true "geoid" "year" (by decide)).1
      (by decide),
    (crs_errors_precede_interpolation Unit tPrims gA [gOtherCrs] (.vStr "2010")
      "area" ["pop"] [] true none [21, 22, 23, 24] true "geoid" "year"
      (by decide)).2 (by decide) (by decide)⟩

theorem unknown_method_unbound_local_witness :
    harmonize Unit tPrims [gA, gB] (.vStr "2010") "land_type_Gaussian_regression"
        (some ["pop"]) (some []) true none [21, 22, 23, 24] true "geoid" "year"
      = Except.error (.unboundLocalError "interpolation") :=
  unknown_method_unbound_local Unit tPrims gA [gB] (.vStr "2010")
    "land_type_Gaussian_regression" ["pop"] [] true none [21, 22, 23, 24] true
    "geoid" "year" "epsg:4326" dfsAB tdAB tvalsAB (.vStr "2000") [.vStr "2010"]
    (by decide) (by decide) (by decide) (by decide) rfl rfl rfl rfl

theorem intensive_block_uses_extensive_names_witness :
    profileBlocks (some ([[Val.vInt 1]], [[Val.vInt 2]])) (some ["pop"])
        (some ["den"])
        = Except.ok [mkDFraw [[Val.vInt 1]] ["pop"], mkDFraw [[Val.vInt 2]] ["pop"]]
      ∧ (mkDFraw [[Val.vInt 2]] ["pop"]).colNames = ["pop"]
      ∧ ∃ p, pdConcatCols [mkDFraw [[Val.vInt 1]] ["pop"],
            mkDFraw [[Val.vInt 2]] ["pop"]] = Except.ok p
          ∧ p.colNames = ["pop"] ++ ["pop"] :=
  intensive_block_uses_extensive_names [[Val.vInt 1]] [[Val.vInt 2]] ["pop"]
    ["den"] (by decide) (by decide) (by decide) (by decide)

theorem partition_keeps_original_labels_witness :
    tdLabel7.index = natRange tdLabel7.nrows
      ∧ tdLabel7.col? "index" =
        some ((dfLabel7.filterBy [Val.vStr "2010"]
          (fun v => decide (v = Val.vStr "2010"))).index.map Val.vInt) :=
  partition_keeps_original_labels dfLabel7 [Val.vStr "2010"] (Val.vStr "2010")
    tdLabel7 rfl

end Tobler
